import Mathlib

/-!
Shallow embedding of `src/pySimulator/nodes.py` (mnipshagen/SNN-computing).

Real-valued Python floats are modelled as rationals (`ℚ`).  Each neuron
class becomes a structure holding its instance attributes; the class
attributes `I` and `out` of `AbstractNeuron` become fields of every
state, initialised to `0` by the constructors.  A `np.random.RandomState`
object is modelled by an identity token `rng : ℕ` (only its identity is
claim-relevant) together with explicit sample inputs to `step`:

* for `LIF.step`, the value of `rng.normal(scale=noise)` is the extra
  argument `ξ` (consulted only in the `noise > 0` branch, as in the code);
* for `PoissonGenerator.step`, the successive values of
  `-np.log(1 - rng.rand())` (rate-1 exponential variates before the
  division by `I`) are an input list `es`; the while loop that consumes
  them is embedded as a recursion on that list, returning `none` when the
  list is exhausted before the loop exits (the loop would keep drawing).

Fallible operations (list indexing `train[index]`, the `% size` with
`size = 0`, the unbounded while loop) return `Option`.
-/

/-- State of a `LIF` neuron: constructor parameters plus the inherited
`I` and `out` attributes. -/
structure LIFState where
  m : ℚ
  V : ℚ
  V_reset : ℚ
  V_rest : ℚ
  thr : ℚ
  amplitude : ℚ
  I_e : ℚ
  noise : ℚ
  rng : ℕ
  I : ℚ
  out : ℚ
deriving DecidableEq

/-- `LIF.__init__`: stores the parameters; `I = 0` and `out = 0` come from
the `AbstractNeuron` class attributes. -/
def LIF.init (m V_init V_reset V_rest thr amplitude I_e noise : ℚ)
    (rng : ℕ) : LIFState :=
  { m := m, V := V_init, V_reset := V_reset, V_rest := V_rest, thr := thr,
    amplitude := amplitude, I_e := I_e, noise := noise, rng := rng,
    I := 0, out := 0 }

/-- `LIF.step`, statement by statement:
`V = V*m + I`; `if noise > 0: V += rng.normal(scale=noise)` (the drawn
value is the argument `ξ`); `V = max(V_rest, V)`; `I = I_e`;
`if V > thr: V = V_reset; out = amplitude else: out = 0`. -/
def LIF.step (s : LIFState) (ξ : ℚ) : LIFState :=
  let V1 := s.V * s.m + s.I
  let V2 := if 0 < s.noise then V1 + ξ else V1
  let V3 := max s.V_rest V2
  let I2 := s.I_e
  if s.thr < V3 then
    { s with V := s.V_reset, I := I2, out := s.amplitude }
  else
    { s with V := V3, I := I2, out := 0 }

/-- `AbstractNeuron.update_rng` as dispatched on a `LIF` instance:
`hasattr(self, 'rng')` is true (`__init__` always sets `rng`, whatever
`noise` is), so the source is replaced. -/
def LIF.update_rng (s : LIFState) (r : ℕ) : LIFState :=
  { s with rng := r }

/-- One external tick around `LIF.step`: external input `inj` is added to
`I` before the step (network accumulation), then the step runs with noise
draw `ξ`; iterated over a sequence of `(inj, ξ)` pairs. -/
def LIF.stepSeq : LIFState → List (ℚ × ℚ) → LIFState
  | s, [] => s
  | s, (inj, ξ) :: rest => LIF.stepSeq (LIF.step { s with I := s.I + inj } ξ) rest

/-- State of a `SpikeTrain` generator: constructor attributes plus the
inherited `I` and `out`. -/
structure SpikeTrainState where
  train : List ℚ
  amplitude : ℚ
  size : ℕ
  index : ℕ
  I : ℚ
  out : ℚ
deriving DecidableEq

/-- `SpikeTrain.__init__`: stores the train, `size = len(train)`,
`index = 0`; no validation whatsoever is performed. -/
def SpikeTrain.init (train : List ℚ) (amplitude : ℚ) : SpikeTrainState :=
  { train := train, amplitude := amplitude, size := train.length,
    index := 0, I := 0, out := 0 }

/-- `SpikeTrain.step`: `out = train[index] * amplitude` (fallible list
indexing) then `index = (index + 1) % size` (fails when `size = 0`,
Python's `ZeroDivisionError`). `I` is not read and not written. -/
def SpikeTrain.step (s : SpikeTrainState) : Option SpikeTrainState :=
  (s.train.get? s.index).bind fun v =>
    if 0 < s.size then
      some { s with out := v * s.amplitude, index := (s.index + 1) % s.size }
    else none

/-- `AbstractNeuron.update_rng` as dispatched on a `SpikeTrain` instance:
`hasattr(self, 'rng')` is false (no `rng` attribute is ever set), so
nothing happens. -/
def SpikeTrain.update_rng (s : SpikeTrainState) (_ : ℕ) : SpikeTrainState :=
  s

/-- `n` consecutive `SpikeTrain.step` calls. -/
def SpikeTrain.stepN : SpikeTrainState → ℕ → Option SpikeTrainState
  | s, 0 => some s
  | s, n + 1 => (SpikeTrain.step s).bind fun t => SpikeTrain.stepN t n

/-- The list of `out` values produced by `n` consecutive
`SpikeTrain.step` calls. -/
def SpikeTrain.runs : SpikeTrainState → ℕ → Option (List ℚ)
  | _, 0 => some []
  | s, n + 1 =>
      (SpikeTrain.step s).bind fun t =>
        (SpikeTrain.runs t n).map fun l => t.out :: l

/-- State of a `PoissonGenerator`: constructor attributes plus the
inherited `I` and `out`. -/
structure PoissonState where
  I_e : ℚ
  amplitude : ℚ
  rng : ℕ
  I : ℚ
  out : ℚ
deriving DecidableEq

/-- `PoissonGenerator.__init__`. -/
def PoissonGenerator.init (I_e amplitude : ℚ) (rng : ℕ) : PoissonState :=
  { I_e := I_e, amplitude := amplitude, rng := rng, I := 0, out := 0 }

/-- The while loop of `PoissonGenerator.step`:
`while (-np.log(1-rng.rand()) / I) < 1: out += 1`.
`es` lists the successive values of `-np.log(1-rng.rand())`; each
iteration compares ITS OWN fresh draw `e / I` against `1` — no running
sum is kept.  Returns the number of iterations, or `none` when `es` is
exhausted while the loop would keep drawing. -/
def poissonCount : List ℚ → ℚ → Option ℕ
  | [], _ => none
  | e :: es, I => if e / I < 1 then (poissonCount es I).map (· + 1) else some 0

/-- Modelled from the spec: the accumulating loop the spec describes for
`PoissonGenerator.step` — `t += -ln(1-u)/I`, `count += 1` each time
`t < 1`, repeat until `t ≥ 1` (the count of events of a rate-`I` Poisson
process in a unit window).  Used only to compare the spec's algorithm
with the code's `poissonCount`. -/
def poissonSpecCount : List ℚ → ℚ → ℚ → Option ℕ
  | [], _, _ => none
  | e :: es, I, t =>
      let t2 := t + e / I
      if t2 < 1 then (poissonSpecCount es I t2).map (· + 1) else some 0

/-- `PoissonGenerator.step`: `out = 0`; if `I > 0` run the while loop
(counting via `poissonCount`); `out *= amplitude`; `I = I_e`. -/
def PoissonGenerator.step (s : PoissonState) (es : List ℚ) : Option PoissonState :=
  if 0 < s.I then
    (poissonCount es s.I).map fun c : ℕ =>
      { s with out := (c : ℚ) * s.amplitude, I := s.I_e }
  else
    some { s with out := 0 * s.amplitude, I := s.I_e }

/-- `AbstractNeuron.update_rng` as dispatched on a `PoissonGenerator`
instance: `hasattr(self, 'rng')` is true, so the source is replaced. -/
def PoissonGenerator.update_rng (s : PoissonState) (r : ℕ) : PoissonState :=
  { s with rng := r }

/-- The list of `out` values of consecutive `PoissonGenerator.step`
calls, one sample list per step. -/
def PoissonGenerator.runs : PoissonState → List (List ℚ) → Option (List ℚ)
  | _, [] => some []
  | s, es :: rest =>
      (PoissonGenerator.step s es).bind fun t =>
        (PoissonGenerator.runs t rest).map fun l => t.out :: l

/-- Composed closed form of `LIF.step` (helper for the proofs below). -/
theorem LIF.step_eq (s : LIFState) (ξ : ℚ) :
    LIF.step s ξ =
      if s.thr < max s.V_rest (s.V * s.m + s.I + (if 0 < s.noise then ξ else 0)) then
        { s with V := s.V_reset, I := s.I_e, out := s.amplitude }
      else
        { s with V := max s.V_rest (s.V * s.m + s.I + (if 0 < s.noise then ξ else 0)),
                 I := s.I_e, out := 0 } := by
  unfold LIF.step
  by_cases h : 0 < s.noise <;> simp [h]

theorem LIF.step_V_rest (s : LIFState) (ξ : ℚ) :
    (LIF.step s ξ).V_rest = s.V_rest := by
  rw [LIF.step_eq]
  split <;> split <;> rfl

theorem LIF.step_V_reset (s : LIFState) (ξ : ℚ) :
    (LIF.step s ξ).V_reset = s.V_reset := by
  rw [LIF.step_eq]
  split <;> split <;> rfl

theorem LIF.step_floor (s : LIFState) (ξ : ℚ) (h : s.V_rest ≤ s.V_reset) :
    s.V_rest ≤ (LIF.step s ξ).V := by
  rw [LIF.step_eq]
  split <;> split
  · exact h
  · exact le_max_left _ _
  · exact h
  · exact le_max_left _ _

/-- C2: one `LIF.step` call performs, in order: `V ← V*m + I`; if
`noise > 0` the normal draw `ξ` is added to `V`; `V ← max(V_rest, V)`;
`I ← I_e`; then if `V > thr`, `V ← V_reset` and `out ← amplitude`, else
`out ← 0`.  Stated as the composed functional characterization of the
sequential code. -/
theorem lif_step_characterization (s : LIFState) (ξ : ℚ) :
    LIF.step s ξ =
      if s.thr < max s.V_rest (s.V * s.m + s.I + (if 0 < s.noise then ξ else 0)) then
        { s with V := s.V_reset, I := s.I_e, out := s.amplitude }
      else
        { s with V := max s.V_rest (s.V * s.m + s.I + (if 0 < s.noise then ξ else 0)),
                 I := s.I_e, out := 0 } :=
  LIF.step_eq s ξ

/-- C10: `LIF.step` mutates only `V`, `I` and `out`: the parameters `m`,
`V_reset`, `V_rest`, `thr`, `I_e`, `noise`, `amplitude` and the attached
random source are unchanged by every call. -/
theorem lif_step_frame (s : LIFState) (ξ : ℚ) :
    (LIF.step s ξ).m = s.m ∧ (LIF.step s ξ).V_reset = s.V_reset ∧
    (LIF.step s ξ).V_rest = s.V_rest ∧ (LIF.step s ξ).thr = s.thr ∧
    (LIF.step s ξ).I_e = s.I_e ∧ (LIF.step s ξ).noise = s.noise ∧
    (LIF.step s ξ).amplitude = s.amplitude ∧ (LIF.step s ξ).rng = s.rng := by
  rw [LIF.step_eq]
  split <;> split <;> exact ⟨rfl, rfl, rfl, rfl, rfl, rfl, rfl, rfl⟩

/-- C9: with `noise ≤ 0`, `LIF.step` never consults the random source:
two units with equal parameters and equal `(V, I)` produce equal
`(V, I, out)` after the step, whatever their random sources and whatever
values those sources would have drawn. -/
theorem lif_step_deterministic_without_noise (s t : LIFState) (ξ1 ξ2 : ℚ)
    (hn : s.noise ≤ 0)
    (hm : s.m = t.m) (hrt : s.V_reset = t.V_reset) (hrs : s.V_rest = t.V_rest)
    (hth : s.thr = t.thr) (hIe : s.I_e = t.I_e) (hns : s.noise = t.noise)
    (ha : s.amplitude = t.amplitude) (hV : s.V = t.V) (hI : s.I = t.I) :
    (LIF.step s ξ1).V = (LIF.step t ξ2).V ∧
    (LIF.step s ξ1).I = (LIF.step t ξ2).I ∧
    (LIF.step s ξ1).out = (LIF.step t ξ2).out := by
  have hns2 : ¬ (0 : ℚ) < t.noise := by rw [← hns]; exact not_lt.mpr hn
  have hns1 : ¬ (0 : ℚ) < s.noise := not_lt.mpr hn
  rw [LIF.step_eq, LIF.step_eq]
  simp only [hns1, hns2, if_false, hm, hrt, hrs, hth, hIe, ha, hV, hI]
  split <;> exact ⟨rfl, rfl, rfl⟩

/-- Witness for `lif_step_deterministic_without_noise`: two concrete LIF
units differing only in their random-source token give identical
`(V, I, out)` for different draws. -/
theorem lif_step_deterministic_without_noise_witness :
    (LIF.init 1 2 0 0 1 1 0 0 7).noise ≤ 0 ∧
    (LIF.step (LIF.init 1 2 0 0 1 1 0 0 7) 5).V
      = (LIF.step (LIF.init 1 2 0 0 1 1 0 0 9) 11).V ∧
    (LIF.step (LIF.init 1 2 0 0 1 1 0 0 7) 5).I
      = (LIF.step (LIF.init 1 2 0 0 1 1 0 0 9) 11).I ∧
    (LIF.step (LIF.init 1 2 0 0 1 1 0 0 7) 5).out
      = (LIF.step (LIF.init 1 2 0 0 1 1 0 0 9) 11).out :=
  ⟨by decide,
   lif_step_deterministic_without_noise
     (LIF.init 1 2 0 0 1 1 0 0 7) (LIF.init 1 2 0 0 1 1 0 0 9) 5 11
     (by decide) rfl rfl rfl rfl rfl rfl rfl rfl rfl⟩

theorem LIF.stepSeq_fields (l : List (ℚ × ℚ)) :
    ∀ t : LIFState, (LIF.stepSeq t l).V_rest = t.V_rest ∧
      (LIF.stepSeq t l).V_reset = t.V_reset := by
  induction l with
  | nil => exact fun t => ⟨rfl, rfl⟩
  | cons p rest ih =>
      intro t
      obtain ⟨inj, ξ⟩ := p
      have h := ih (LIF.step { t with I := t.I + inj } ξ)
      rw [LIF.stepSeq]
      rw [h.1, h.2, LIF.step_V_rest, LIF.step_V_reset]
      exact ⟨rfl, rfl⟩

theorem LIF.stepSeq_floor_aux (l : List (ℚ × ℚ)) :
    ∀ t : LIFState, t.V_rest ≤ t.V_reset → t.V_rest ≤ t.V →
      t.V_rest ≤ (LIF.stepSeq t l).V := by
  induction l with
  | nil => exact fun t _ hV => hV
  | cons p rest ih =>
      intro t h hV
      obtain ⟨inj, ξ⟩ := p
      rw [LIF.stepSeq]
      set u := LIF.step { t with I := t.I + inj } ξ with hu
      have hrest : u.V_rest = t.V_rest := LIF.step_V_rest _ _
      have hreset : u.V_reset = t.V_reset := LIF.step_V_reset _ _
      have hfloor : t.V_rest ≤ u.V := LIF.step_floor { t with I := t.I + inj } ξ h
      have := ih u (by rw [hrest, hreset]; exact h) (by rw [hrest]; exact hfloor)
      rw [hrest] at this
      exact this

/-- C3, amended: for a LIF neuron whose parameters satisfy
`V_rest ≤ V_reset`, after every `step()` — under any sequence of
injected currents and noise draws — `V ≥ V_rest` holds.  (The unamended
claim fails when `V_reset < V_rest`, see the counterexample.) -/
theorem lif_floor_invariant (s : LIFState) (h : s.V_rest ≤ s.V_reset)
    (inj ξ : ℚ) (l : List (ℚ × ℚ)) :
    s.V_rest ≤ (LIF.stepSeq s ((inj, ξ) :: l)).V := by
  rw [LIF.stepSeq]
  set u := LIF.step { s with I := s.I + inj } ξ with hu
  have hrest : u.V_rest = s.V_rest := LIF.step_V_rest _ _
  have hreset : u.V_reset = s.V_reset := LIF.step_V_reset _ _
  have hfloor : s.V_rest ≤ u.V := LIF.step_floor { s with I := s.I + inj } ξ h
  have := LIF.stepSeq_floor_aux l u (by rw [hrest, hreset]; exact h)
    (by rw [hrest]; exact hfloor)
  rw [hrest] at this
  exact this

/-- Witness for `lif_floor_invariant`: a default-parameter LIF neuron
driven by one step of external input 2 keeps `V ≥ V_rest`. -/
theorem lif_floor_invariant_witness :
    (LIF.init 1 0 0 0 1 1 0 0 0).V_rest ≤ (LIF.init 1 0 0 0 1 1 0 0 0).V_reset ∧
    (LIF.init 1 0 0 0 1 1 0 0 0).V_rest
      ≤ (LIF.stepSeq (LIF.init 1 0 0 0 1 1 0 0 0) [(2, 0)]).V :=
  ⟨by decide, lif_floor_invariant (LIF.init 1 0 0 0 1 1 0 0 0) (by decide) 2 0 []⟩

/-- C3 counterexample: with `V_reset = -1 < 0 = V_rest`, `thr = 0`, a
spiking step drives `V` to `V_reset`, strictly below `V_rest`: the
invariant `V ≥ V_rest` fails after that step. -/
theorem lif_floor_invariant_counterexample :
    (LIF.stepSeq (LIF.init 1 1 (-1) 0 0 1 0 0 0) [(0, 0)]).V
      < (LIF.stepSeq (LIF.init 1 1 (-1) 0 0 1 0 0 0) [(0, 0)]).V_rest := by
  norm_num [LIF.stepSeq, LIF.step, LIF.init, max_def]

theorem SpikeTrain.step_some (s : SpikeTrainState)
    (h1 : s.size = s.train.length) (h2 : s.index < s.size) :
    SpikeTrain.step s =
      some { s with out := s.train.getD s.index 0 * s.amplitude,
                    index := (s.index + 1) % s.size } := by
  have hlt : s.index < s.train.length := h1 ▸ h2
  have hpos : 0 < s.size := Nat.lt_of_le_of_lt (Nat.zero_le _) h2
  have hgd : s.train.getD s.index 0 = s.train.get ⟨s.index, hlt⟩ := by
    rw [List.getD_eq_getElem?_getD, List.getElem?_eq_getElem hlt]
    rfl
  unfold SpikeTrain.step
  rw [List.get?_eq_get hlt, Option.some_bind, if_pos hpos, hgd]

theorem SpikeTrain.step_ignores_I (s : SpikeTrainState) (q : ℚ) :
    SpikeTrain.step { s with I := q }
      = (SpikeTrain.step s).map fun t => { t with I := q } := by
  unfold SpikeTrain.step
  cases s.train.get? s.index with
  | none => rfl
  | some v =>
      by_cases hpos : 0 < s.size <;> simp [hpos]

theorem SpikeTrain.runs_ignores_I (n : ℕ) :
    ∀ (s : SpikeTrainState) (q : ℚ),
      SpikeTrain.runs { s with I := q } n = SpikeTrain.runs s n := by
  induction n with
  | zero => intro s q; rfl
  | succ n ih =>
      intro s q
      rw [SpikeTrain.runs, SpikeTrain.runs, SpikeTrain.step_ignores_I]
      cases SpikeTrain.step s with
      | none => rfl
      | some t => simp [ih t q]

theorem SpikeTrain.runs_formula (n : ℕ) :
    ∀ s : SpikeTrainState, s.size = s.train.length → s.index < s.size →
      SpikeTrain.runs s n
        = some ((List.range n).map fun k =>
            s.train.getD ((s.index + k) % s.size) 0 * s.amplitude) := by
  induction n with
  | zero => intro s _ _; rfl
  | succ n ih =>
      intro s h1 h2
      have hpos : 0 < s.size := Nat.lt_of_le_of_lt (Nat.zero_le _) h2
      have ht := ih { s with out := s.train.getD s.index 0 * s.amplitude,
                             index := (s.index + 1) % s.size }
        (by exact h1) (by exact Nat.mod_lt _ hpos)
      rw [SpikeTrain.runs, SpikeTrain.step_some s h1 h2, Option.some_bind, ht]
      dsimp only
      rw [Option.map_some']
      congr 1
      rw [List.range_succ_eq_map, List.map_cons, List.map_map]
      congr 1
      · rw [Nat.add_zero, Nat.mod_eq_of_lt h2]
      · congr 1
        funext k
        simp only [Function.comp]
        congr 2
        rw [Nat.mod_add_mod]
        congr 1
        omega

theorem SpikeTrain.stepN_inv (n : ℕ) :
    ∀ s t : SpikeTrainState, s.size = s.train.length → s.index < s.size →
      SpikeTrain.stepN s n = some t →
      t.size = s.size ∧ t.train = s.train ∧ t.index < t.size := by
  induction n with
  | zero =>
      intro s t _ h2 h
      rw [SpikeTrain.stepN] at h
      injection h with h
      subst h
      exact ⟨rfl, rfl, h2⟩
  | succ n ih =>
      intro s t h1 h2 h
      have hpos : 0 < s.size := Nat.lt_of_le_of_lt (Nat.zero_le _) h2
      rw [SpikeTrain.stepN, SpikeTrain.step_some s h1 h2, Option.some_bind] at h
      have hrec := ih { s with out := s.train.getD s.index 0 * s.amplitude,
                               index := (s.index + 1) % s.size } t
        (by exact h1) (by exact Nat.mod_lt _ hpos) h
      exact ⟨hrec.1, hrec.2.1, hrec.2.2⟩

/-- C5: for a `SpikeTrain` with consistent non-empty state
(`size = len(train)`, `index < size`), every `step()` outputs
`train[index] * amplitude` and advances `index` cyclically: the `out`
sequence over `n` steps is the train replayed cyclically scaled by
`amplitude`; the sequence is independent of any writes to `I`;
`0 ≤ index < size` holds after every step; and for `train = [0,1,0,2]`,
`amplitude = 1`, the `out` sequence over 8 steps is
`[0,1,0,2,0,1,0,2]`. -/
theorem spiketrain_cyclic_replay (s : SpikeTrainState)
    (h1 : s.size = s.train.length) (h2 : s.index < s.size) :
    (∀ n, SpikeTrain.runs s n
        = some ((List.range n).map fun k =>
            s.train.getD ((s.index + k) % s.size) 0 * s.amplitude))
    ∧ (∀ (q : ℚ) (n : ℕ), SpikeTrain.runs { s with I := q } n = SpikeTrain.runs s n)
    ∧ (∀ (n : ℕ) (t : SpikeTrainState), SpikeTrain.stepN s n = some t → t.index < t.size)
    ∧ SpikeTrain.runs (SpikeTrain.init [0, 1, 0, 2] 1) 8
        = some [0, 1, 0, 2, 0, 1, 0, 2] := by
  refine ⟨fun n => SpikeTrain.runs_formula n s h1 h2,
          fun q n => SpikeTrain.runs_ignores_I n s q,
          fun n t h => (SpikeTrain.stepN_inv n s t h1 h2 h).2.2, ?_⟩
  rw [SpikeTrain.runs_formula 8 (SpikeTrain.init [0, 1, 0, 2] 1) rfl (by decide)]
  dsimp only [SpikeTrain.init]
  simp only [mul_one, Nat.zero_add]
  decide

/-- Witness for `spiketrain_cyclic_replay` at `train = [0,1,0,2]`,
`amplitude = 1`. -/
theorem spiketrain_cyclic_replay_witness :
    (SpikeTrain.init [0, 1, 0, 2] 1).size
      = (SpikeTrain.init [0, 1, 0, 2] 1).train.length ∧
    (SpikeTrain.init [0, 1, 0, 2] 1).index < (SpikeTrain.init [0, 1, 0, 2] 1).size ∧
    SpikeTrain.runs (SpikeTrain.init [0, 1, 0, 2] 1) 8
      = some [0, 1, 0, 2, 0, 1, 0, 2] :=
  ⟨rfl, by decide,
   (spiketrain_cyclic_replay (SpikeTrain.init [0, 1, 0, 2] 1) rfl (by decide)).2.2.2⟩

/-- C4, amended: constructing a `SpikeTrain` with an empty train does NOT
fail — `__init__` performs no validation and returns a state with
`size = 0` (there is no InvalidParameter in the code); the failure
instead surfaces at the first `step()` call, where indexing the empty
train fails. -/
theorem spiketrain_empty_construction (t : List ℚ) (a : ℚ) :
    (SpikeTrain.init t a).size = t.length ∧
    (t = [] → SpikeTrain.step (SpikeTrain.init t a) = none) := by
  constructor
  · rfl
  · intro h
    subst h
    rfl

/-- Witness for `spiketrain_empty_construction` at the empty train. -/
theorem spiketrain_empty_construction_witness :
    SpikeTrain.step (SpikeTrain.init [] 1) = none :=
  (spiketrain_empty_construction [] 1).2 rfl

/-- C4 counterexample: constructing with the empty train succeeds and
yields an ordinary state (with `size = 0`) instead of failing with
InvalidParameter at construction time; the error is only hit
mid-simulation, at the first `step()`. -/
theorem spiketrain_empty_guard_counterexample :
    SpikeTrain.init [] 1
      = { train := [], amplitude := 1, size := 0, index := 0, I := 0, out := 0 } ∧
    SpikeTrain.step (SpikeTrain.init [] 1) = none :=
  ⟨rfl, rfl⟩

theorem SpikeTrain.step_keeps_I (s t : SpikeTrainState)
    (h : SpikeTrain.step s = some t) : t.I = s.I := by
  unfold SpikeTrain.step at h
  cases hg : s.train.get? s.index with
  | none => rw [hg] at h; simp at h
  | some v =>
      rw [hg, Option.some_bind] at h
      by_cases hpos : 0 < s.size
      · rw [if_pos hpos] at h
        injection h with h
        subst h
        rfl
      · rw [if_neg hpos] at h
        simp at h

theorem PoissonGenerator.step_I (s : PoissonState) (es : List ℚ) (t : PoissonState)
    (h : PoissonGenerator.step s es = some t) : t.I = s.I_e := by
  unfold PoissonGenerator.step at h
  by_cases hI : 0 < s.I
  · rw [if_pos hI] at h
    cases hc : poissonCount es s.I with
    | none => rw [hc] at h; simp at h
    | some c =>
        rw [hc, Option.map_some'] at h
        injection h with h
        subst h
        rfl
  · rw [if_neg hI] at h
    injection h with h
    subst h
    rfl

/-- C6, amended: `LIF.step` and `PoissonGenerator.step` reset `I` to the
baseline `I_e` after consuming it; `SpikeTrain.step`, however, leaves `I`
unchanged — it neither consumes nor resets it, so an externally written
`I` value survives the step. -/
theorem step_resets_I :
    (∀ (s : LIFState) (ξ : ℚ), (LIF.step s ξ).I = s.I_e)
    ∧ (∀ (s : PoissonState) (es : List ℚ) (t : PoissonState),
        PoissonGenerator.step s es = some t → t.I = s.I_e)
    ∧ (∀ s t : SpikeTrainState, SpikeTrain.step s = some t → t.I = s.I) := by
  refine ⟨fun s ξ => ?_, PoissonGenerator.step_I, SpikeTrain.step_keeps_I⟩
  rw [LIF.step_eq]
  split <;> split <;> rfl

/-- Witness for `step_resets_I`: concrete LIF, Poisson and SpikeTrain
steps. -/
theorem step_resets_I_witness :
    (LIF.step (LIF.init 1 0 0 0 1 1 3 0 0) 0).I = (LIF.init 1 0 0 0 1 1 3 0 0).I_e
    ∧ ({ I_e := 2, amplitude := 1, rng := 0, I := 2, out := 0 * 1 } : PoissonState).I
        = (PoissonGenerator.init 2 1 0).I_e
    ∧ ({ train := [1], amplitude := 1, size := 1, index := (0 + 1) % 1, I := 5,
         out := 1 * 1 } : SpikeTrainState).I
        = ({ SpikeTrain.init [1] 1 with I := 5 } : SpikeTrainState).I :=
  ⟨step_resets_I.1 (LIF.init 1 0 0 0 1 1 3 0 0) 0,
   step_resets_I.2.1 (PoissonGenerator.init 2 1 0) []
     { I_e := 2, amplitude := 1, rng := 0, I := 2, out := 0 * 1 } rfl,
   step_resets_I.2.2 { SpikeTrain.init [1] 1 with I := 5 }
     { train := [1], amplitude := 1, size := 1, index := (0 + 1) % 1, I := 5,
       out := 1 * 1 } rfl⟩

/-- C6 counterexample: a `SpikeTrain` whose `I` was externally set to `5`
still has `I = 5` after `step()` — the step does not reset `I` to any
baseline, so the externally accumulated input survives. -/
theorem step_resets_I_counterexample :
    (SpikeTrain.step { SpikeTrain.init [1] 1 with I := 5 }).map SpikeTrainState.I
      = some 5 ∧ (5 : ℚ) ≠ 0 := by
  constructor
  · rfl
  · norm_num

theorem PoissonGenerator.step_nonpos (s : PoissonState) (es : List ℚ)
    (h : s.I ≤ 0) :
    PoissonGenerator.step s es = some { s with out := 0, I := s.I_e } := by
  unfold PoissonGenerator.step
  rw [if_neg (not_lt.mpr h), zero_mul]

theorem PoissonGenerator.runs_zero (ess : List (List ℚ)) :
    ∀ s : PoissonState, s.I = 0 → s.I_e = 0 →
      PoissonGenerator.runs s ess = some (ess.map fun _ => (0 : ℚ)) := by
  induction ess with
  | nil => intro s _ _; rfl
  | cons es rest ih =>
      intro s h0 he
      rw [PoissonGenerator.runs, PoissonGenerator.step_nonpos s es (le_of_eq h0),
        Option.some_bind]
      rw [ih { s with out := 0, I := s.I_e } (by exact he) (by exact he)]
      rfl

/-- C7: when `I ≤ 0` at the start of `PoissonGenerator.step`, the step
emits `out = 0` and then sets `I ← I_e`; hence with `I = 0` held
constant (`I_e = 0`, no external input) every step outputs `0`. -/
theorem poisson_zero_rate (s : PoissonState) (es : List ℚ) (h : s.I ≤ 0) :
    PoissonGenerator.step s es = some { s with out := 0, I := s.I_e }
    ∧ (s.I = 0 → s.I_e = 0 →
        ∀ ess : List (List ℚ),
          PoissonGenerator.runs s ess = some (ess.map fun _ => (0 : ℚ))) :=
  ⟨PoissonGenerator.step_nonpos s es h,
   fun h0 he ess => PoissonGenerator.runs_zero ess s h0 he⟩

/-- Witness for `poisson_zero_rate`: a generator with `I_e = 0` and
`I = 0` emits `0` on one step and over a 3-step run. -/
theorem poisson_zero_rate_witness :
    (PoissonGenerator.init 0 1 0).I ≤ 0
    ∧ PoissonGenerator.step (PoissonGenerator.init 0 1 0) []
        = some { PoissonGenerator.init 0 1 0 with out := 0, I := (PoissonGenerator.init 0 1 0).I_e }
    ∧ PoissonGenerator.runs (PoissonGenerator.init 0 1 0) [[], [], []]
        = some [0, 0, 0] :=
  ⟨by decide,
   (poisson_zero_rate (PoissonGenerator.init 0 1 0) [] (by decide)).1,
   (poisson_zero_rate (PoissonGenerator.init 0 1 0) [] (by decide)).2 rfl rfl
     [[], [], []]⟩

/-- C1 (code bug): `PoissonGenerator.step`'s while loop compares each
fresh draw `-ln(1-u)/I` individually against `1` and never accumulates a
running time `t`.  With `I = 1`, `amplitude = 1` and successive
exponential samples `[3/5, 3/5, 3/5, 2]`, the code counts 3 events,
while the spec's accumulating loop (`poissonSpecCount`) stops at
`t = 3/5 + 3/5 ≥ 1` and counts 1: the code realizes a geometric count,
not the event count of a rate-`I` Poisson process over a unit window. -/
theorem poisson_step_missing_accumulation :
    poissonCount [3/5, 3/5, 3/5, 2] 1 = some 3
    ∧ poissonSpecCount [3/5, 3/5, 3/5, 2] 1 0 = some 1
    ∧ PoissonGenerator.step
        { I_e := 0, amplitude := 1, rng := 0, I := 1, out := 0 }
        [3/5, 3/5, 3/5, 2]
        = some { I_e := 0, amplitude := 1, rng := 0, I := 0, out := 3 } := by
  refine ⟨?_, ?_, ?_⟩ <;>
    norm_num [poissonCount, poissonSpecCount, PoissonGenerator.step]

/-- C8, amended: `update_rng` replaces the `rng` field of every unit
that has one — LIF (regardless of `noise`, since `__init__` always sets
`rng`) and PoissonGenerator — and is a no-op for SpikeTrain only, which
never gets an `rng` attribute; no other field of any unit is modified. -/
theorem update_rng_replaces_rng :
    (∀ (s : LIFState) (r : ℕ), LIF.update_rng s r = { s with rng := r })
    ∧ (∀ (s : PoissonState) (r : ℕ),
        PoissonGenerator.update_rng s r = { s with rng := r })
    ∧ (∀ (s : SpikeTrainState) (r : ℕ), SpikeTrain.update_rng s r = s) :=
  ⟨fun _ _ => rfl, fun _ _ => rfl, fun _ _ => rfl⟩

/-- C8 counterexample: `update_rng` is NOT a no-op on a LIF unit with
`noise = 0`: `hasattr(self, 'rng')` holds because LIF's `__init__`
always sets `rng`, so the random-source field is replaced and the
unit's state changes. -/
theorem update_rng_noop_counterexample :
    (LIF.init 1 0 0 0 1 1 0 0 0).noise = 0
    ∧ LIF.update_rng (LIF.init 1 0 0 0 1 1 0 0 0) 1 ≠ LIF.init 1 0 0 0 1 1 0 0 0
    ∧ (LIF.update_rng (LIF.init 1 0 0 0 1 1 0 0 0) 1).rng = 1 := by
  refine ⟨rfl, ?_, rfl⟩
  intro h
  have h2 := congrArg LIFState.rng h
  simp [LIF.update_rng, LIF.init] at h2
